import Mathlib

/-!
Verification development for the Mollweide sky-map plotting core
(`map_rotated.py`).  The Python source is shallowly embedded over `ℚ`
(IEEE doubles become exact rationals; `NaN` becomes `Option.none`).
Matrices are lists of rows.  Functions keep the source's names where
possible; numpy primitives are modelled by small `np`-prefixed helpers.
-/

namespace MollSky

/-- Matrix of plain numbers (longitude / latitude edge matrices). -/
abbrev Mat : Type := List (List ℚ)

/-- Matrix of data values; `none` models numpy `NaN` ("no data"). -/
abbrev OMat : Type := List (List (Option ℚ))

/-- True mathematical modulo on `ℚ`, the semantics of Python's `%` on
floats: `a % b = a - b * floor (a / b)` (sign follows the divisor). -/
def ratMod (a b : ℚ) : ℚ := a - b * ⌊a / b⌋

/-- Model of `np.nanmin` on a non-empty 1-D coordinate array (the
coordinate arrays never contain `NaN` in the embedded code paths). -/
def listMin : List ℚ → ℚ
  | [] => 0
  | x :: xs => xs.foldl min x

/-- Model of `np.nanmax` on a non-empty 1-D coordinate array. -/
def listMax : List ℚ → ℚ
  | [] => 0
  | x :: xs => xs.foldl max x

/-- Embeds `cast_into_360range` (map_rotated.py lines 328-333) for a
scalar argument: `if np.array(angle).size == 1 and angle == lo_lim+360:
return angle; return (angle - lo_lim) % 360 + lo_lim`. -/
def cast_into_360range (angle lo_lim : ℚ) : ℚ :=
  if angle = lo_lim + 360 then angle
  else ratMod (angle - lo_lim) 360 + lo_lim

/-- Embeds `cast_into_360range` for a 1-D array argument: the
`size == 1` special case fires only for one-element arrays equal to
`lo_lim + 360`; otherwise the modulo is applied elementwise. -/
def cast_into_360range_vec (angle : List ℚ) (lo_lim : ℚ) : List ℚ :=
  if angle.length = 1 ∧ angle.getD 0 0 = lo_lim + 360 then angle
  else angle.map fun a => ratMod (a - lo_lim) 360 + lo_lim

/-- Model of numpy fancy indexing of a row with a possibly negative
integer index: a negative index counts from the end of the row. -/
def npIdx (row : List (Option ℚ)) (i : ℤ) : Option ℚ :=
  if 0 ≤ i then row.getD i.toNat none else row.getD (row.length - i.natAbs) none

/-- Model of numpy fancy indexing of a matrix row list with a possibly
negative integer index. -/
def npRow (d : OMat) (i : ℤ) : List (Option ℚ) :=
  if 0 ≤ i then d.getD i.toNat [] else d.getD (d.length - i.natAbs) []

/-- Embeds `insert_coordinate` (map_rotated.py lines 336-373).  The
no-op guard is `np.all(coords > new) or np.all(coords < new)`; the main
path rebuilds the coordinate array from the `np.where` index sets and
duplicates the data column (`is_lon = true`) or row (`is_lon = false`)
via the index set `np.where(new < coords)[0] - 1`. -/
def insert_coordinate (new_coord : ℚ) (lons_or_lats : List ℚ) (is_lon : Bool)
    (data : OMat) : List ℚ × OMat :=
  if (∀ x ∈ lons_or_lats, new_coord < x) ∨ (∀ x ∈ lons_or_lats, x < new_coord) then
    (lons_or_lats, data)
  else
    let n := lons_or_lats.length
    let below := (List.range n).filter fun i => decide (lons_or_lats.getD i 0 < new_coord)
    let above := (List.range n).filter fun i => decide (new_coord < lons_or_lats.getD i 0)
    let coords := below.map (fun i => lons_or_lats.getD i 0) ++
      new_coord :: above.map (fun i => lons_or_lats.getD i 0)
    if is_lon then
      let data2 := if data.isEmpty then data else
        data.map fun row =>
          below.map (fun i => row.getD i none) ++
            above.map (fun i : ℕ => npIdx row ((i : ℤ) - 1))
      (coords, data2)
    else
      let data2 := if data.isEmpty then data else
        below.map (fun i => data.getD i []) ++
          above.map (fun i : ℕ => npRow data ((i : ℤ) - 1))
      (coords, data2)

/-- Embeds the seam locator (map_rotated.py line 85):
`np.where((lons % 180 == 0) * (lons != lons[0]) * (lons != lons[-1]))[0]`. -/
def lon_cut_idx (lons : List ℚ) : List ℕ :=
  (List.range lons.length).filter fun i =>
    decide (ratMod (lons.getD i 0) 180 = 0 ∧
      lons.getD i 0 ≠ lons.getD 0 0 ∧
      lons.getD i 0 ≠ lons.getD (lons.length - 1) 0)

/-- First output of `np.meshgrid(lons, lats)`: every row is `lons`. -/
def meshX (lons lats : List ℚ) : Mat := lats.map fun _ => lons

/-- Second output of `np.meshgrid(lons, lats)`: row `i` is constant
`lats[i]`. -/
def meshY (lons lats : List ℚ) : Mat := lats.map fun la => lons.map fun _ => la

/-- Column slice `m[0:, 0:k]`. -/
def take_cols {α : Type} (m : List (List α)) (k : ℕ) : List (List α) :=
  m.map fun r => r.take k

/-- Column slice `m[0:, k:]`. -/
def drop_cols {α : Type} (m : List (List α)) (k : ℕ) : List (List α) :=
  m.map fun r => r.drop k

/-- Column slice `m[0:, a:b]`. -/
def slice_cols {α : Type} (m : List (List α)) (a b : ℕ) : List (List α) :=
  m.map fun r => (r.drop a).take (b - a)

/-- Embeds the edge-matrix splitting of map_rotated.py lines 96-104: the
longitude and latitude edge matrices are cut into column ranges
`[0:c+1]`, (`[c:c2+1]`,) `[c:]`/`[c2:]` at the first one or two cut
indices; with no cut the matrix is returned whole. -/
def edge_col_patches {α : Type} (idx : List ℕ) (m : List (List α)) : List (List (List α)) :=
  if idx.length = 0 then [m]
  else if 1 < idx.length then
    [take_cols m (idx.getD 0 0 + 1),
     slice_cols m (idx.getD 0 0) (idx.getD 1 0 + 1),
     drop_cols m (idx.getD 1 0)]
  else
    [take_cols m (idx.getD 0 0 + 1), drop_cols m (idx.getD 0 0)]

/-- Embeds the data-matrix splitting of map_rotated.py lines 101/105:
pixel column ranges `[0:c]`, (`[c:c2]`,) `[c:]`/`[c2:]`. -/
def data_patches {α : Type} (idx : List ℕ) (d : List (List α)) : List (List (List α)) :=
  if idx.length = 0 then [d]
  else if 1 < idx.length then
    [take_cols d (idx.getD 0 0),
     slice_cols d (idx.getD 0 0) (idx.getD 1 0),
     drop_cols d (idx.getD 1 0)]
  else
    [take_cols d (idx.getD 0 0), drop_cols d (idx.getD 0 0)]

/-- Embeds `replace_values` (map_rotated.py lines 111-114) as a pure
map: every entry with `(x - old_val)^2 < precision2` becomes `new_val`.
The source default for `precision2` is `1e-20`. -/
def replace_values (arr : Mat) (old_val new_val precision2 : ℚ) : Mat :=
  arr.map fun r => r.map fun x => if (x - old_val) ^ 2 < precision2 then new_val else x

/-- Embeds the boundary value correction block (map_rotated.py lines
116-126) on the split longitude matrices, after any display reordering:
for normalized `phi > 0` the patches get `0→360`, `0→0` (and `0→360`
for a third patch); for `phi ≤ 0` the mirrored `360→0`, `0→360`
(and `360→0`). -/
def boundary_correction (phi : ℚ) (lps : List Mat) : List Mat :=
  if 0 < cast_into_360range phi (-180) then
    match lps with
    | [a, b] => [replace_values a 0 360 (1/10^20), replace_values b 0 0 (1/10^20)]
    | [a, b, c] => [replace_values a 0 360 (1/10^20), replace_values b 0 0 (1/10^20),
        replace_values c 0 360 (1/10^20)]
    | other => other
  else
    match lps with
    | [a, b] => [replace_values a 360 0 (1/10^20), replace_values b 0 360 (1/10^20)]
    | [a, b, c] => [replace_values a 360 0 (1/10^20), replace_values b 0 360 (1/10^20),
        replace_values c 360 0 (1/10^20)]
    | other => other

/-- Specification-level boundary correction: the same patch pattern, but
matching "values near `old`" with a plain tolerance `|x - old| < 1e-10`,
which is how the spec describes the squared-difference test. -/
def spec_rewrite (arr : Mat) (old_val new_val : ℚ) : Mat :=
  arr.map fun r => r.map fun x => if |x - old_val| < 1/10^10 then new_val else x

/-- Specification-level description of the boundary correction block. -/
def boundary_correction_spec (phi : ℚ) (lps : List Mat) : List Mat :=
  if 0 < cast_into_360range phi (-180) then
    match lps with
    | [a, b] => [spec_rewrite a 0 360, spec_rewrite b 0 0]
    | [a, b, c] => [spec_rewrite a 0 360, spec_rewrite b 0 0, spec_rewrite c 0 360]
    | other => other
  else
    match lps with
    | [a, b] => [spec_rewrite a 360 0, spec_rewrite b 0 360]
    | [a, b, c] => [spec_rewrite a 360 0, spec_rewrite b 0 360, spec_rewrite c 360 0]
    | other => other

/-- Embeds the patch-construction part of `plot_rotated_map`
(map_rotated.py lines 49-128) on the `center_meridian = False`,
`orientation_kw = None` path, returning the list of
(lon edges, lat edges, data) patches handed to the renderer.  The
spherical rotation primitive `sphere_rotate.rotate_sphere` is external
to this file's source and is taken as the parameter `rot`; the angle
`th` only affects rendering, not patch construction, and is dropped. -/
def plot_rotated_map (rot : Mat → Mat → ℚ → Mat × Mat)
    (lons0 lats0 : List ℚ) (data0 : OMat) (alf0 phi0 : ℚ) :
    List (Mat × Mat × OMat) :=
  let phi := cast_into_360range phi0 (-180)
  let alf := cast_into_360range alf0 (-180)
  let wide := listMax lons0 - listMin lons0 < 360
  let data1 := if wide then data0.map (fun r => r ++ [none]) else data0
  let lons1 := if wide then lons0 ++ [listMin lons0 + 360] else lons0
  let aq := abs (90 - abs alf)
  let p1 := if alf ≠ 0 ∧ listMin lats0 < -aq then
      insert_coordinate (-aq) lats0 false data1 else (lats0, data1)
  let p2 := if alf ≠ 0 ∧ aq < listMax p1.1 then
      insert_coordinate aq p1.1 false p1.2 else p1
  let ins := cast_into_360range phi (listMin lons1)
  let p3 := insert_coordinate ins lons1 true p2.2
  let p4 := insert_coordinate (cast_into_360range (phi + 180) (listMin p3.1)) p3.1 true p3.2
  let lons2 := p4.1.map fun x => x - ins
  let idx := lon_cut_idx lons2
  let rotated := rot (meshX lons2 p2.1) (meshY lons2 p2.1) alf
  if idx.length = 0 then [(rotated.1, rotated.2, p4.2)]
  else
    let lps0 := edge_col_patches idx rotated.1
    let tps0 := edge_col_patches idx rotated.2
    let dps0 := data_patches idx p4.2
    let rev := idx.length = 1 ∧ cast_into_360range phi (-180) < 0
    let lps1 := if rev then lps0.reverse else lps0
    let tps1 := if rev then tps0.reverse else tps0
    let dps1 := if rev then dps0.reverse else dps0
    (boundary_correction phi lps1).zip (tps1.zip dps1)

/-- Modelled from the spec: `sphere_rotate.rotate_sphere` is not part of
this file's source tree.  Per spec §4.2/§8.1 rotation by tilt `0` is the
identity on the coordinate grids; this instance of the rotation
parameter is used only at `alf = 0`. -/
def rotate_sphere_id : Mat → Mat → ℚ → Mat × Mat := fun lons lats _ => (lons, lats)

/-- Model of `np.round` on `ℚ`: round half to even (banker's rounding),
numpy's rounding mode. -/
def npRound (q : ℚ) : ℤ :=
  if Int.fract q < 1/2 then ⌊q⌋
  else if 1/2 < Int.fract q then ⌊q⌋ + 1
  else if 2 ∣ ⌊q⌋ then ⌊q⌋ else ⌊q⌋ + 1

/-- Embeds the jump detector of `add_grid_patch` (map_rotated.py line
314): `np.where(np.abs(lons[:-1] - lons[1:]) > 90)[0] + 1`, the indices
just after each longitude jump. -/
def jump_indices (lons : List ℚ) : List ℕ :=
  ((List.range (lons.length - 1)).filter fun i =>
    decide (90 < |lons.getD i 0 - lons.getD (i + 1) 0|)).map (· + 1)

/-- Embeds `lon_end = 180 * np.round(lons[jumps] / 180)` (line 315) at a
single jump index. -/
def lon_end (lons : List ℚ) (j : ℕ) : ℚ := 180 * (npRound (lons.getD j 0 / 180) : ℚ)

/-- Embeds `lat_end = (lats[jumps] + lats[jumps-1]) / 2` (line 316) at a
single jump index. -/
def lat_end (lats : List ℚ) (j : ℕ) : ℚ := (lats.getD j 0 + lats.getD (j - 1) 0) / 2

/-- Model of `np.insert(arr, obj, values)` for in-range insertion
positions, given as (position, value) pairs: all values whose position
is `i` are inserted, in their order of occurrence, before the element
originally at index `i` (numpy resolves duplicate positions by a stable
sort of `obj`). -/
def np_insert (arr : List (Option ℚ)) (pairs : List (ℕ × Option ℚ)) : List (Option ℚ) :=
  ((List.range arr.length).flatMap fun i =>
    (pairs.filter fun p => decide (p.1 = i)).map Prod.snd ++ (arr.get? i).toList) ++
  (pairs.filter fun p => decide (arr.length ≤ p.1)).map Prod.snd

/-- Embeds the gridline splitting block of `add_grid_patch`
(map_rotated.py lines 314-321): the flattened insertion index vector is
`[jumps, jumps, jumps]` and the flattened value vectors are
`[-lon_end, NaN, lon_end]` and `[lat_end, NaN, lat_end]`. -/
def add_grid_patch_split (lons lats : List ℚ) : List (Option ℚ) × List (Option ℚ) :=
  let jumps := jump_indices lons
  let obj := jumps ++ jumps ++ jumps
  let ins_lons := jumps.map (fun j => some (-(lon_end lons j))) ++
    jumps.map (fun _ => (none : Option ℚ)) ++ jumps.map (fun j => some (lon_end lons j))
  let ins_lats := jumps.map (fun j => some (lat_end lats j)) ++
    jumps.map (fun _ => (none : Option ℚ)) ++ jumps.map (fun j => some (lat_end lats j))
  (np_insert (lons.map some) (obj.zip ins_lons),
   np_insert (lats.map some) (obj.zip ins_lats))

/-- Specification-level description of the gridline splitting: walk the
vertex list and, immediately before each post-jump vertex, emit exactly
the three synthetic longitudes `-endpoint`, `NaN`, `endpoint`. -/
def gridline_spec_lons (lons : List ℚ) : List (Option ℚ) :=
  (List.range lons.length).flatMap fun i =>
    (if i ∈ jump_indices lons then
      [some (-(lon_end lons i)), none, some (lon_end lons i)] else []) ++
    ((lons.map some).get? i).toList

/-- Specification-level description of the latitude side of the
gridline splitting: before each post-jump vertex, emit the straddling
midpoint latitude, `NaN`, and the midpoint again. -/
def gridline_spec_lats (lons lats : List ℚ) : List (Option ℚ) :=
  (List.range lats.length).flatMap fun i =>
    (if i ∈ jump_indices lons then
      [some (lat_end lats i), none, some (lat_end lats i)] else []) ++
    ((lats.map some).get? i).toList

/-- Combines two optional values with `min`, ignoring `none`: the
folding step of `np.nanmin`. -/
def omin : Option ℚ → Option ℚ → Option ℚ
  | none, b => b
  | some a, none => some a
  | some a, some b => some (min a b)

/-- Combines two optional values with `max`, ignoring `none`: the
folding step of `np.nanmax`. -/
def omax : Option ℚ → Option ℚ → Option ℚ
  | none, b => b
  | some a, none => some a
  | some a, some b => some (max a b)

/-- Model of `np.nanmin(M)` on a data matrix: the least entry ignoring
`NaN`, or `none` (numpy: `nan` with a warning) if every entry is `NaN`. -/
def nanmin_mat (m : OMat) : Option ℚ := m.flatten.foldl omin none

/-- Model of `np.nanmax(M)` on a data matrix. -/
def nanmax_mat (m : OMat) : Option ℚ := m.flatten.foldl omax none

/-- Model of `np.nanmin` on a 1-D list of possibly-`NaN` values. -/
def nanmin_list (l : List (Option ℚ)) : Option ℚ := l.foldl omin none

/-- Model of `np.nanmax` on a 1-D list of possibly-`NaN` values. -/
def nanmax_list (l : List (Option ℚ)) : Option ℚ := l.foldl omax none

/-- Embeds the colorbar range selection of `draw_mollweide_map`
(map_rotated.py lines 195-211): `cnorm` forces `(0, 1)`; otherwise, if
either bound is unsupplied, the missing bounds are filled from the
per-patch finite extrema with fallbacks `vmax = 1`, `vmin = 0` for
all-`NaN` data, and a defaulted `vmin` is clamped to `0` whenever
`vmin > 0` and `vmax > 10 * vmin`. -/
def color_range (cnorm : Bool) (vmin0 vmax0 : Option ℚ) (data_plt : List OMat) : ℚ × ℚ :=
  if cnorm then (0, 1)
  else if vmin0 = none ∨ vmax0 = none then
    let minVals := data_plt.map nanmin_mat
    let maxVals := data_plt.map nanmax_mat
    let vmax := match vmax0 with
      | some v => v
      | none => (nanmax_list maxVals).getD 1
    let vmin1 := match vmin0 with
      | some v => v
      | none => (nanmin_list minVals).getD 0
    let vmin := if vmin0 = none ∧ 0 < vmin1 ∧ 10 * vmin1 < vmax then 0 else vmin1
    (vmin, vmax)
  else (vmin0.getD 0, vmax0.getD 0)

/-!
Store-passing model of `plot_rotated_map` used for the mutation claim.
Numpy array objects live in a `Store` of buffers; a `NpView` is a
(reference, column window) pair, since all views taken by the source are
of the form `arr[0:, a:b]`.  `np.ndarray.copy` allocates, in-place
assignment writes through the view to the underlying buffer, and every
numpy operation that returns a new array allocates a fresh buffer.
-/

/-- Heap of numpy array buffers (1-D arrays are single-row buffers). -/
abbrev Store : Type := List OMat

/-- View of a buffer: all rows, columns `[c0 : c0+clen)` (or to the end
when `clen = none`). -/
structure NpView where
  base : ℕ
  c0 : ℕ
  clen : Option ℕ
deriving Repr, DecidableEq

/-- Full view of buffer `b`. -/
def view_all (b : ℕ) : NpView := ⟨b, 0, none⟩

/-- Column window of a row. -/
def sliceRow (r : List (Option ℚ)) (c0 : ℕ) (clen : Option ℕ) : List (Option ℚ) :=
  match clen with
  | none => r.drop c0
  | some n => (r.drop c0).take n

/-- Read the rectangle denoted by a view. -/
def readV (s : Store) (v : NpView) : OMat :=
  (s.getD v.base []).map fun r => sliceRow r v.c0 v.clen

/-- Read a 1-D coordinate array stored as a single-row buffer (the
coordinate arrays hold no `NaN` in the embedded code paths). -/
def read1 (s : Store) (v : NpView) : List ℚ :=
  ((readV s v).getD 0 []).map fun o => o.getD 0

/-- Allocate a fresh buffer, returning a full view of it. -/
def allocB (s : Store) (b : OMat) : NpView × Store := (view_all s.length, s ++ [b])

/-- Model of `np.ndarray.copy`: read the view, allocate the contents. -/
def copyV (s : Store) (v : NpView) : NpView × Store := allocB s (readV s v)

/-- Write through a view: apply `f` to every entry inside the column
window of every row of the base buffer, leaving the rest of the buffer
(and every other buffer) unchanged. -/
def writeV (s : Store) (v : NpView) (f : Option ℚ → Option ℚ) : Store :=
  s.set v.base ((s.getD v.base []).map fun r =>
    r.take v.c0 ++ (sliceRow r v.c0 v.clen).map f ++
      (match v.clen with | none => [] | some n => r.drop (v.c0 + n)))

/-- Elementwise effect of `replace_values` on one (possibly `NaN`)
entry; comparisons against `NaN` are false, so `NaN` entries are kept. -/
def replaceF (old_val new_val : ℚ) : Option ℚ → Option ℚ
  | some x => if (x - old_val) ^ 2 < 1/10^20 then some new_val else some x
  | none => none

/-- Column sub-view `v[0:, a:a+b)` (the source only slices full views). -/
def viewCols (v : NpView) (a : ℕ) (b : Option ℕ) : NpView := ⟨v.base, v.c0 + a, b⟩

/-- Store-passing version of `insert_coordinate`: the no-op guard
returns the original array objects; the main path allocates the two
freshly built arrays, mirroring `np.concatenate`. -/
def insert_coordinateS (s : Store) (new_coord : ℚ) (coordsV : NpView) (is_lon : Bool)
    (dataV : NpView) : NpView × NpView × Store :=
  let coords := read1 s coordsV
  if (∀ x ∈ coords, new_coord < x) ∨ (∀ x ∈ coords, x < new_coord) then
    (coordsV, dataV, s)
  else
    let p := insert_coordinate new_coord coords is_lon (readV s dataV)
    let a1 := allocB s [p.1.map some]
    let a2 := allocB a1.2 p.2
    (a1.1, a2.1, a2.2)

/-- Result of the allocation-only stages of `plot_rotated_mapS` (lines
49-89 of the source): views of the rotated edge matrices and the final
data array, plus the seam indices. -/
structure PreOut where
  lonsR : NpView
  latsR : NpView
  dataR : NpView
  idx : List ℕ
  store : Store

/-- Store-passing version of the longitude-span widening
(map_rotated.py lines 64-67): `np.hstack` allocates the widened data
and longitude arrays. -/
def stage_widen (lonsV dataV : NpView) (s0 : Store) : NpView × NpView × Store :=
  let lons := read1 s0 lonsV
  if listMax lons - listMin lons < 360 then
    let a1 := allocB s0 ((readV s0 dataV).map fun r => r ++ [none])
    let a2 := allocB a1.2 [(lons ++ [listMin lons + 360]).map some]
    (a2.1, a1.1, a2.2)
  else (lonsV, dataV, s0)

/-- Store-passing version of the latitude-row insertions
(map_rotated.py lines 69-75). -/
def stage_lat_inserts (alf : ℚ) (latsV dataV : NpView) (s1 : Store) :
    NpView × NpView × Store :=
  let aq := abs (90 - abs alf)
  let w2 := if alf ≠ 0 ∧ listMin (read1 s1 latsV) < -aq then
      insert_coordinateS s1 (-aq) latsV false dataV
    else (latsV, dataV, s1)
  if alf ≠ 0 ∧ aq < listMax (read1 w2.2.2 w2.1) then
    insert_coordinateS w2.2.2 aq w2.1 false w2.2.1
  else w2

/-- Store-passing version of the longitude-column insertions, shift,
meshgrid and rotation (map_rotated.py lines 77-89): every numpy
expression that builds a new array allocates a fresh buffer. -/
def stage_lon_rotate (rot : OMat → OMat → ℚ → OMat × OMat) (alf phi : ℚ)
    (lonsV latsV dataV : NpView) (s3 : Store) : PreOut :=
  let ins := cast_into_360range phi (listMin (read1 s3 lonsV))
  let w4 := insert_coordinateS s3 ins lonsV true dataV
  let w5 := insert_coordinateS w4.2.2 (cast_into_360range (phi + 180) (listMin (read1 w4.2.2 w4.1)))
      w4.1 true w4.2.1
  let s5 := w5.2.2
  let a6 := allocB s5 [((read1 s5 w5.1).map fun x => x - ins).map some]
  let lons2 := read1 a6.2 a6.1
  let lats2 := read1 a6.2 latsV
  let a7 := allocB a6.2 ((meshX lons2 lats2).map (·.map some))
  let a8 := allocB a7.2 ((meshY lons2 lats2).map (·.map some))
  let rr := rot (readV a8.2 a7.1) (readV a8.2 a8.1) alf
  let a9 := allocB a8.2 rr.1
  let a10 := allocB a9.2 rr.2
  ⟨a9.1, a10.1, w5.2.1, lon_cut_idx lons2, a10.2⟩

/-- Store-passing version of map_rotated.py lines 49-89 (widening,
coordinate insertions, longitude shift, meshgrid, rotation); no buffer
is written in place. -/
def stage_pre (rot : OMat → OMat → ℚ → OMat × OMat) (alf phi : ℚ)
    (lonsV latsV dataV : NpView) (s0 : Store) : PreOut :=
  let w1 := stage_widen lonsV dataV s0
  let w3 := stage_lat_inserts alf latsV w1.2.1 w1.2.2
  stage_lon_rotate rot alf phi w1.1 w3.1 w3.2.1 w3.2.2

/-- Store-passing version of the boundary value correction block
(map_rotated.py lines 117-126): in-place writes through the (copied)
longitude patch views. -/
def write_phase (s : Store) (phi : ℚ) (lps : List NpView) : Store :=
  if 0 < cast_into_360range phi (-180) then
    match lps with
    | [a, b] => writeV (writeV s a (replaceF 0 360)) b (replaceF 0 0)
    | [a, b, c] => writeV (writeV (writeV s a (replaceF 0 360)) b (replaceF 0 0))
        c (replaceF 0 360)
    | _ => s
  else
    match lps with
    | [a, b] => writeV (writeV s a (replaceF 360 0)) b (replaceF 0 360)
    | [a, b, c] => writeV (writeV (writeV s a (replaceF 360 0)) b (replaceF 0 360))
        c (replaceF 360 0)
    | _ => s

/-- Store-passing version of map_rotated.py lines 91-128: patch slicing
(with `lons.copy()` before each longitude slice, plain views for the
latitude and data slices), display reordering, and the in-place
boundary value correction. -/
def stage_cut (phi : ℚ) (lonsRV latsRV dataV : NpView) (idx : List ℕ) (s : Store) :
    List (NpView × NpView × NpView) × Store :=
  if idx.length = 0 then ([(lonsRV, latsRV, dataV)], s)
  else if 1 < idx.length then
    let c := idx.getD 0 0
    let c2 := idx.getD 1 0
    let k1 := copyV s lonsRV
    let k2 := copyV k1.2 lonsRV
    let k3 := copyV k2.2 lonsRV
    let lps := [viewCols k1.1 0 (some (c + 1)), viewCols k2.1 c (some (c2 + 1 - c)),
      viewCols k3.1 c2 none]
    let tps := [viewCols latsRV 0 (some (c + 1)), viewCols latsRV c (some (c2 + 1 - c)),
      viewCols latsRV c2 none]
    let dps := [viewCols dataV 0 (some c), viewCols dataV c (some (c2 - c)),
      viewCols dataV c2 none]
    (lps.zip (tps.zip dps), write_phase k3.2 phi lps)
  else
    let c := idx.getD 0 0
    let k1 := copyV s lonsRV
    let k2 := copyV k1.2 lonsRV
    let lps0 := [viewCols k1.1 0 (some (c + 1)), viewCols k2.1 c none]
    let tps0 := [viewCols latsRV 0 (some (c + 1)), viewCols latsRV c none]
    let dps0 := [viewCols dataV 0 (some c), viewCols dataV c none]
    let rev := cast_into_360range phi (-180) < 0
    let lps := if rev then lps0.reverse else lps0
    let tps := if rev then tps0.reverse else tps0
    let dps := if rev then dps0.reverse else dps0
    (lps.zip (tps.zip dps), write_phase k2.2 phi lps)

/-- Store-passing version of the patch-construction part of
`plot_rotated_map` (`center_meridian = False`, `orientation_kw = None`
path): composition of the allocation-only stages with the cutting and
in-place-correction stage. -/
def plot_rotated_mapS (rot : OMat → OMat → ℚ → OMat × OMat) (alf0 phi0 : ℚ)
    (lonsV latsV dataV : NpView) (s0 : Store) :
    List (NpView × NpView × NpView) × Store :=
  let phi := cast_into_360range phi0 (-180)
  let alf := cast_into_360range alf0 (-180)
  let pre := stage_pre rot alf phi lonsV latsV dataV s0
  stage_cut phi pre.lonsR pre.latsR pre.dataR pre.idx pre.store

/-- Horizontal (column-axis) concatenation of a list of matrices, the
reassembly operation `np.concatenate(..., axis=1)` used to state patch
coverage. -/
def hconcat {α : Type} (ms : List (List (List α))) : List (List α) :=
  match ms with
  | [] => []
  | a :: rest => rest.foldl (fun x y => x.zipWith (· ++ ·) y) a

/-- Store `s'` extends store `s`: it is at least as long and agrees with
`s` on every buffer index of `s`. -/
def StoreExt (s s' : Store) : Prop :=
  s.length ≤ s'.length ∧ ∀ i, i < s.length → s'.get? i = s.get? i

/-! Arithmetic facts about `ratMod` and the coordinate extrema. -/

lemma ratMod_eq_fract (a b : ℚ) (hb : b ≠ 0) : ratMod a b = b * Int.fract (a / b) := by
  rw [ratMod, Int.fract, mul_sub, mul_div_cancel₀ _ hb]

lemma ratMod_nonneg (a b : ℚ) (hb : 0 < b) : 0 ≤ ratMod a b := by
  rw [ratMod_eq_fract a b hb.ne']
  exact mul_nonneg hb.le (Int.fract_nonneg _)

lemma ratMod_lt_right (a b : ℚ) (hb : 0 < b) : ratMod a b < b := by
  rw [ratMod_eq_fract a b hb.ne']
  calc b * Int.fract (a / b) < b * 1 := by
        exact mul_lt_mul_of_pos_left (Int.fract_lt_one _) hb
    _ = b := mul_one b

lemma ratMod_sub_int (a b : ℚ) : ∃ k : ℤ, ratMod a b = a - b * k := ⟨⌊a / b⌋, rfl⟩

lemma ratMod_eval (a b : ℚ) (k : ℤ) (hb : 0 < b) (h1 : 0 ≤ a - b * k)
    (h2 : a - b * k < b) : ratMod a b = a - b * k := by
  have hfl : ⌊a / b⌋ = k := by
    rw [Int.floor_eq_iff]
    constructor
    · rw [le_div_iff₀ hb]
      linarith
    · rw [div_lt_iff₀ hb]
      linarith
  rw [ratMod, hfl]

lemma foldl_min_le_init (l : List ℚ) : ∀ a : ℚ, l.foldl min a ≤ a := by
  induction l with
  | nil => intro a; exact le_refl a
  | cons x t ih =>
    intro a
    exact le_trans (ih (min a x)) (min_le_left a x)

lemma foldl_min_le_mem (l : List ℚ) : ∀ a x : ℚ, x ∈ l → l.foldl min a ≤ x := by
  induction l with
  | nil => intro a x hx; cases hx
  | cons y t ih =>
    intro a x hx
    rcases List.mem_cons.mp hx with h | h
    · subst h
      exact le_trans (foldl_min_le_init t (min a x)) (min_le_right a x)
    · exact ih (min a y) x h

lemma foldl_min_mem (l : List ℚ) : ∀ a : ℚ, l.foldl min a ∈ a :: l := by
  induction l with
  | nil => intro a; simp [List.foldl]
  | cons y t ih =>
    intro a
    have h := ih (min a y)
    rcases List.mem_cons.mp h with h' | h'
    · rcases min_choice a y with hc | hc
      · exact List.mem_cons.mpr (Or.inl (h'.trans hc))
      · exact List.mem_cons.mpr (Or.inr (List.mem_cons.mpr (Or.inl (h'.trans hc))))
    · exact List.mem_cons.mpr (Or.inr (List.mem_cons.mpr (Or.inr h')))

lemma foldl_max_le_init (l : List ℚ) : ∀ a : ℚ, a ≤ l.foldl max a := by
  induction l with
  | nil => intro a; exact le_refl a
  | cons x t ih =>
    intro a
    exact le_trans (le_max_left a x) (ih (max a x))

lemma foldl_max_le_mem (l : List ℚ) : ∀ a x : ℚ, x ∈ l → x ≤ l.foldl max a := by
  induction l with
  | nil => intro a x hx; cases hx
  | cons y t ih =>
    intro a x hx
    rcases List.mem_cons.mp hx with h | h
    · subst h
      exact le_trans (le_max_right a x) (foldl_max_le_init t (max a x))
    · exact ih (max a y) x h

lemma foldl_max_mem (l : List ℚ) : ∀ a : ℚ, l.foldl max a ∈ a :: l := by
  induction l with
  | nil => intro a; simp [List.foldl]
  | cons y t ih =>
    intro a
    have h := ih (max a y)
    rcases List.mem_cons.mp h with h' | h'
    · rcases max_choice a y with hc | hc
      · exact List.mem_cons.mpr (Or.inl (h'.trans hc))
      · exact List.mem_cons.mpr (Or.inr (List.mem_cons.mpr (Or.inl (h'.trans hc))))
    · exact List.mem_cons.mpr (Or.inr (List.mem_cons.mpr (Or.inr h')))

lemma listMin_le {l : List ℚ} {x : ℚ} (hx : x ∈ l) : listMin l ≤ x := by
  cases l with
  | nil => cases hx
  | cons h t =>
    rcases List.mem_cons.mp hx with h' | h'
    · subst h'; exact foldl_min_le_init t x
    · exact foldl_min_le_mem t h x h'

lemma le_listMax {l : List ℚ} {x : ℚ} (hx : x ∈ l) : x ≤ listMax l := by
  cases l with
  | nil => cases hx
  | cons h t =>
    rcases List.mem_cons.mp hx with h' | h'
    · subst h'; exact foldl_max_le_init t x
    · exact foldl_max_le_mem t h x h'

lemma listMin_mem {l : List ℚ} (h : l ≠ []) : listMin l ∈ l := by
  cases l with
  | nil => exact absurd rfl h
  | cons a t => exact foldl_min_mem t a

lemma listMax_mem {l : List ℚ} (h : l ≠ []) : listMax l ∈ l := by
  cases l with
  | nil => exact absurd rfl h
  | cons a t => exact foldl_max_mem t a

/-- Claim C6: for every coordinate array and every new value lying
strictly outside `[min(coords), max(coords)]`, `insert_coordinate`
returns the coordinate array and the data matrix unchanged — a defined
no-op, not an error condition. -/
theorem claim6_insert_outside_noop (new_coord : ℚ) (coords : List ℚ) (is_lon : Bool)
    (data : OMat) (_hne : coords ≠ [])
    (hout : new_coord < listMin coords ∨ listMax coords < new_coord) :
    insert_coordinate new_coord coords is_lon data = (coords, data) := by
  have hcond : (∀ x ∈ coords, new_coord < x) ∨ (∀ x ∈ coords, x < new_coord) := by
    rcases hout with h | h
    · exact Or.inl fun x hx => h.trans_le (listMin_le hx)
    · exact Or.inr fun x hx => (le_listMax hx).trans_lt h
  rw [insert_coordinate, if_pos hcond]

/-- Witness for C6 at a concrete input: inserting `-5` below the range
of `[0, 90]` changes nothing. -/
theorem claim6_insert_outside_noop_witness :
    insert_coordinate (-5) [0, 90] true [[some 1]] = ([0, 90], [[some 1]]) := by
  refine claim6_insert_outside_noop (-5) [0, 90] true [[some 1]] (by simp) (Or.inl ?_)
  norm_num [listMin, List.foldl]

/-- Claim C7: the angle normalizer maps every rational angle, scalar or
array, (elementwise) into the half-open window
`[lower_bound, lower_bound + 360)`, except that a scalar (or one-element
array) input exactly equal to `lower_bound + 360` is returned unchanged;
the result always differs from the input by an integer multiple of 360
(true modulo), so it is correct for negative angles and angles
arbitrarily far outside one period. -/
theorem claim7_angle_window (q lo : ℚ) :
    (q = lo + 360 → cast_into_360range q lo = q) ∧
    (q ≠ lo + 360 → lo ≤ cast_into_360range q lo ∧ cast_into_360range q lo < lo + 360) ∧
    (∃ k : ℤ, cast_into_360range q lo = q - 360 * k) ∧
    (cast_into_360range_vec [lo + 360] lo = [lo + 360]) ∧
    (∀ xs : List ℚ, xs ≠ [lo + 360] →
      ∀ x ∈ cast_into_360range_vec xs lo, lo ≤ x ∧ x < lo + 360) := by
  refine ⟨fun h => ?_, fun h => ?_, ?_, ?_, ?_⟩
  · rw [cast_into_360range, if_pos h]
  · rw [cast_into_360range, if_neg h]
    constructor
    · have := ratMod_nonneg (q - lo) 360 (by norm_num)
      linarith
    · have := ratMod_lt_right (q - lo) 360 (by norm_num)
      linarith
  · rw [cast_into_360range]
    split
    · exact ⟨0, by push_cast; ring⟩
    · obtain ⟨k, hk⟩ := ratMod_sub_int (q - lo) 360
      exact ⟨k, by rw [hk]; ring⟩
  · rw [cast_into_360range_vec, if_pos (by simp)]
  · intro xs hxs x hx
    rw [cast_into_360range_vec, if_neg ?hguard] at hx
    case hguard =>
      rintro ⟨h1, h2⟩
      obtain ⟨a, ha⟩ := List.length_eq_one.mp h1
      subst ha
      simp only [List.getD_cons_zero] at h2
      exact hxs (by rw [h2])
    obtain ⟨a, _, ha⟩ := List.mem_map.mp hx
    subst ha
    constructor
    · have := ratMod_nonneg (a - lo) 360 (by norm_num)
      linarith
    · have := ratMod_lt_right (a - lo) 360 (by norm_num)
      linarith

/-- Witness for C7 at a concrete input: `-1000` is normalized into
`[-180, 180)` (to `80`). -/
theorem claim7_angle_window_witness :
    (-180 : ℚ) ≤ cast_into_360range (-1000) (-180) ∧
      cast_into_360range (-1000) (-180) < -180 + 360 :=
  (claim7_angle_window (-1000) (-180)).2.1 (by norm_num)

/-- Claim C9: with `vmin`/`vmax` unsupplied and `cnorm` false, when the
finite data minimum over all patches is strictly positive and the finite
maximum exceeds ten times that minimum, the color-range selection
silently sets `vmin` to `0` instead of the data minimum, while a call
that supplies the same extrema explicitly keeps `vmin` at the data
minimum — so the two calls color the same data differently. -/
theorem claim9_vmin_default_clamp (data_plt : List OMat) (m M : ℚ)
    (hm : nanmin_list (data_plt.map nanmin_mat) = some m)
    (hM : nanmax_list (data_plt.map nanmax_mat) = some M)
    (hm0 : 0 < m) (hclamp : 10 * m < M) :
    (color_range false none none data_plt).1 = 0 ∧
    (color_range false none none data_plt).2 = M ∧
    m ≠ 0 ∧ (color_range false (some m) (some M) data_plt).1 = m := by
  refine ⟨?_, ?_, ne_of_gt hm0, ?_⟩
  · simp [color_range, hm, hM, hm0, hclamp]
  · simp [color_range, hm, hM]
  · simp [color_range]

/-- Witness for C9 at a concrete input: one patch with data `[1, 20]`
gives the defaulted range `(0, 20)` although the data minimum is `1`. -/
theorem claim9_vmin_default_clamp_witness :
    (color_range false none none [[[some 1, some 20]]]).1 = 0 ∧
    (color_range false none none [[[some 1, some 20]]]).2 = 20 ∧
    (1 : ℚ) ≠ 0 ∧ (color_range false (some 1) (some 20) [[[some 1, some 20]]]).1 = 1 := by
  refine claim9_vmin_default_clamp [[[some 1, some 20]]] 1 20 ?_ ?_ (by norm_num) (by norm_num)
  · simp [nanmin_list, nanmin_mat, omin, List.foldl]
  · simp [nanmax_list, nanmax_mat, omax, List.foldl]

/-- Replacing with the source's squared-difference test at the default
`precision2 = 1e-20` is the same as replacing values within a plain
tolerance of `1e-10` of the target. -/
lemma replace_values_eq_spec (arr : Mat) (old_val new_val : ℚ) :
    replace_values arr old_val new_val (1/10^20) = spec_rewrite arr old_val new_val := by
  have key : ∀ x : ℚ, ((x - old_val) ^ 2 < 1/10^20) = (|x - old_val| < 1/10^10) := by
    intro x
    apply propext
    constructor
    · intro h
      nlinarith [sq_abs (x - old_val), abs_nonneg (x - old_val)]
    · intro h
      nlinarith [sq_abs (x - old_val), abs_nonneg (x - old_val)]
  rw [replace_values, spec_rewrite]
  refine List.map_congr_left fun r _ => List.map_congr_left fun x _ => ?_
  exact if_congr (iff_of_eq (key x)) rfl rfl

/-- Claim C3: the boundary value correction rewrites longitudes matching
`0` to `360` in the first patch (and, with three patches, in the last
patch) when normalized `phi` is positive, and applies the mirrored
`360 → 0` rewrite to those patches when normalized `phi` is
non-positive; matching is by the squared-difference test at tolerance
`1e-10` on the value (`1e-20` on the square), not exact equality —
e.g. `1e-11 ≠ 0` is still rewritten to `360`. -/
theorem claim3_boundary_correction_tolerance (phi : ℚ) (lps : List Mat) :
    boundary_correction phi lps = boundary_correction_spec phi lps ∧
    replace_values [[1/10^11]] 0 360 (1/10^20) = [[360]] ∧
    ((1 : ℚ)/10^11 ≠ 0) := by
  refine ⟨?_, ?_, by norm_num⟩
  · rcases lps with _ | ⟨a, _ | ⟨b, _ | ⟨c, _ | d⟩⟩⟩
    · rfl
    · rfl
    · have e1 : boundary_correction phi [a, b] = if 0 < cast_into_360range phi (-180)
          then [replace_values a 0 360 (1/10^20), replace_values b 0 0 (1/10^20)]
          else [replace_values a 360 0 (1/10^20), replace_values b 0 360 (1/10^20)] := rfl
      have e2 : boundary_correction_spec phi [a, b] = if 0 < cast_into_360range phi (-180)
          then [spec_rewrite a 0 360, spec_rewrite b 0 0]
          else [spec_rewrite a 360 0, spec_rewrite b 0 360] := rfl
      rw [e1, e2]
      simp only [replace_values_eq_spec]
    · have e1 : boundary_correction phi [a, b, c] = if 0 < cast_into_360range phi (-180)
          then [replace_values a 0 360 (1/10^20), replace_values b 0 0 (1/10^20),
            replace_values c 0 360 (1/10^20)]
          else [replace_values a 360 0 (1/10^20), replace_values b 0 360 (1/10^20),
            replace_values c 360 0 (1/10^20)] := rfl
      have e2 : boundary_correction_spec phi [a, b, c] = if 0 < cast_into_360range phi (-180)
          then [spec_rewrite a 0 360, spec_rewrite b 0 0, spec_rewrite c 0 360]
          else [spec_rewrite a 360 0, spec_rewrite b 0 360, spec_rewrite c 360 0] := rfl
      rw [e1, e2]
      simp only [replace_values_eq_spec]
    · rfl
  · norm_num [replace_values]

lemma zipWith_append_map {α : Type} (d : List (List α)) (f g : List α → List α)
    (h : ∀ r, f r ++ g r = r) :
    List.zipWith (· ++ ·) (d.map f) (d.map g) = d := by
  induction d with
  | nil => rfl
  | cons r t ih => simp [h r, ih]

lemma zipWith_append_map3 {α : Type} (d : List (List α)) (f g h : List α → List α)
    (hfgh : ∀ r, (f r ++ g r) ++ h r = r) :
    List.zipWith (· ++ ·) (List.zipWith (· ++ ·) (d.map f) (d.map g)) (d.map h) = d := by
  induction d with
  | nil => rfl
  | cons r t ih =>
    simp only [List.map_cons, List.zipWith_cons_cons]
    rw [hfgh r, ih]

lemma lon_cut_idx_sorted (lons : List ℚ) : (lon_cut_idx lons).Pairwise (· < ·) :=
  List.Pairwise.filter _ (List.pairwise_lt_range _)

/-- Claim C2: for every grid and data matrix and every 0-, 1-, or 2-cut
split performed by the patch splitter, concatenating the emitted data
sub-matrices along the column axis, in original (not display-reordered)
order, reconstructs exactly the data matrix that was split, with no
duplicated and no missing pixel column. -/
theorem claim2_patch_coverage {α : Type} (lons : List ℚ) (d : List (List α)) :
    hconcat (data_patches (lon_cut_idx lons) d) = d := by
  have hp := lon_cut_idx_sorted lons
  rcases hidx : lon_cut_idx lons with _ | ⟨c, _ | ⟨c2, rest⟩⟩
  · simp [data_patches, hconcat]
  · have h1 : ¬([c].length = 0) := by simp
    have h2 : ¬(1 < [c].length) := by simp
    rw [data_patches, if_neg h1, if_neg h2]
    simp only [List.getD_cons_zero, hconcat, List.foldl]
    exact zipWith_append_map d _ _ fun r => List.take_append_drop c r
  · have hcc : c < c2 := by
      rw [hidx] at hp
      exact List.rel_of_pairwise_cons hp (List.mem_cons_self c2 rest)
    have h1 : ¬((c :: c2 :: rest).length = 0) := by simp
    have h2 : 1 < (c :: c2 :: rest).length := by simp
    rw [data_patches, if_neg h1, if_pos h2]
    simp only [List.getD_cons_zero, List.getD_cons_succ, hconcat, List.foldl]
    refine zipWith_append_map3 d _ _ _ fun r => ?_
    show (r.take c ++ (r.drop c).take (c2 - c)) ++ r.drop c2 = r
    rw [← List.take_add, Nat.add_sub_cancel' hcc.le, List.take_append_drop]

/-! Evaluation facts for `ratMod` at the concrete values appearing in
the end-to-end scenarios. -/

lemma ratMod180 (a : ℚ) (k : ℤ) (h1 : 0 ≤ a - 180 * k) (h2 : a - 180 * k < 180) :
    ratMod a 180 = a - 180 * k :=
  ratMod_eval a 180 k (by norm_num) h1 h2

lemma ratMod360 (a : ℚ) (k : ℤ) (h1 : 0 ≤ a - 360 * k) (h2 : a - 360 * k < 360) :
    ratMod a 360 = a - 360 * k :=
  ratMod_eval a 360 k (by norm_num) h1 h2

lemma rm180_0 : ratMod (0 : ℚ) 180 = 0 := by
  rw [ratMod180 0 0 (by norm_num) (by norm_num)]; norm_num

lemma rm180_90 : ratMod (90 : ℚ) 180 = 90 := by
  rw [ratMod180 90 0 (by norm_num) (by norm_num)]; norm_num

lemma rm180_180 : ratMod (180 : ℚ) 180 = 0 := by
  rw [ratMod180 180 1 (by norm_num) (by norm_num)]; norm_num

lemma rm180_270 : ratMod (270 : ℚ) 180 = 90 := by
  rw [ratMod180 270 1 (by norm_num) (by norm_num)]; norm_num

lemma rm180_360 : ratMod (360 : ℚ) 180 = 0 := by
  rw [ratMod180 360 2 (by norm_num) (by norm_num)]; norm_num

lemma rm180_450 : ratMod (450 : ℚ) 180 = 90 := by
  rw [ratMod180 450 2 (by norm_num) (by norm_num)]; norm_num

lemma rm180_540 : ratMod (540 : ℚ) 180 = 0 := by
  rw [ratMod180 540 3 (by norm_num) (by norm_num)]; norm_num

lemma rm180_630 : ratMod (630 : ℚ) 180 = 90 := by
  rw [ratMod180 630 3 (by norm_num) (by norm_num)]; norm_num

lemma rm180_720 : ratMod (720 : ℚ) 180 = 0 := by
  rw [ratMod180 720 4 (by norm_num) (by norm_num)]; norm_num

lemma rm360_0 : ratMod (0 : ℚ) 360 = 0 := by
  rw [ratMod360 0 0 (by norm_num) (by norm_num)]; norm_num

lemma rm360_180 : ratMod (180 : ℚ) 360 = 180 := by
  rw [ratMod360 180 0 (by norm_num) (by norm_num)]; norm_num

lemma cast0_m180 : cast_into_360range 0 (-180) = 0 := by
  rw [cast_into_360range, if_neg (by norm_num)]
  norm_num [rm360_180]

lemma cast0_0 : cast_into_360range 0 0 = 0 := by
  rw [cast_into_360range, if_neg (by norm_num)]
  norm_num [rm360_0]

lemma cast180_0 : cast_into_360range 180 0 = 180 := by
  rw [cast_into_360range, if_neg (by norm_num)]
  norm_num [rm360_180]

/-- Counterexample to claim C1: on the grid
`lon_edges = [0, 90, 180, 270, 360]`, `lat_edges = [-90, 0, 90]`,
`data = [[1,2,3,4],[5,6,7,8]]` with `alf = 0`, `phi = 0`, the splitter
does not take the no-cut path: the seam locator finds the interior cut
at `lon = 180` (index 2) and the renderer receives two patches, not
one. -/
theorem claim1_counterexample :
    (plot_rotated_map rotate_sphere_id [0, 90, 180, 270, 360] [-90, 0, 90]
      [[some 1, some 2, some 3, some 4], [some 5, some 6, some 7, some 8]] 0 0).length ≠ 1 := by
  norm_num [plot_rotated_map, rotate_sphere_id, cast0_m180, cast0_0, cast180_0,
    listMin, listMax, List.foldl, insert_coordinate, lon_cut_idx, meshX, meshY,
    edge_col_patches, data_patches, boundary_correction, replace_values,
    take_cols, drop_cols, slice_cols, npIdx, List.filter_cons, List.range_succ,
    rm180_0, rm180_90, rm180_180, rm180_270, rm180_360]

/-- Claim C1 as amended: on the grid `lon_edges = [0, 90, 180, 270, 360]`,
`lat_edges = [-90, 0, 90]`, `data = [[1,2,3,4],[5,6,7,8]]` with
orientation `alf = 0`, `phi = 0` (`center_meridian` false),
`plot_rotated_map` takes the 1-cut path with the cut at `lon = 180`
(column index 2) and hands the renderer exactly two patches, whose
longitude/latitude edge matrices and data matrices are the input grid's
edge columns `0..2` / `2..4` and pixel columns `0..1` / `2..3`
unchanged — concatenating them reconstructs the input grid. -/
theorem claim1_two_patches :
    plot_rotated_map rotate_sphere_id [0, 90, 180, 270, 360] [-90, 0, 90]
      [[some 1, some 2, some 3, some 4], [some 5, some 6, some 7, some 8]] 0 0 =
    [([[0, 90, 180], [0, 90, 180], [0, 90, 180]],
      [[-90, -90, -90], [0, 0, 0], [90, 90, 90]],
      [[some 1, some 2], [some 5, some 6]]),
     ([[180, 270, 360], [180, 270, 360], [180, 270, 360]],
      [[-90, -90, -90], [0, 0, 0], [90, 90, 90]],
      [[some 3, some 4], [some 7, some 8]])] := by
  norm_num [plot_rotated_map, rotate_sphere_id, cast0_m180, cast0_0, cast180_0,
    listMin, listMax, List.foldl, insert_coordinate, lon_cut_idx, meshX, meshY,
    edge_col_patches, data_patches, boundary_correction, replace_values,
    take_cols, drop_cols, slice_cols, npIdx, List.filter_cons, List.range_succ,
    rm180_0, rm180_90, rm180_180, rm180_270, rm180_360]

lemma rm180_eval_list :
    ratMod (450 : ℚ) 180 = 90 ∧ ratMod (540 : ℚ) 180 = 0 ∧
    ratMod (630 : ℚ) 180 = 90 ∧ ratMod (720 : ℚ) 180 = 0 :=
  ⟨rm180_450, rm180_540, rm180_630, rm180_720⟩

lemma lon_cut_idx_720 :
    lon_cut_idx [0, 90, 180, 270, 360, 450, 540, 630, 720] = [2, 4, 6] := by
  norm_num [lon_cut_idx, List.filter_cons, List.range_succ,
    rm180_0, rm180_90, rm180_180, rm180_270, rm180_360,
    rm180_450, rm180_540, rm180_630, rm180_720]

lemma data_patches_take_two {α : Type} (c c2 : ℕ) (rest : List ℕ) (d : List (List α)) :
    data_patches (c :: c2 :: rest) d = [take_cols d c, slice_cols d c c2, drop_cols d c2] := by
  rw [data_patches, if_neg (by simp), if_pos (by simp)]
  simp

lemma edge_col_patches_take_two {α : Type} (c c2 : ℕ) (rest : List ℕ) (m : List (List α)) :
    edge_col_patches (c :: c2 :: rest) m =
      [take_cols m (c + 1), slice_cols m c (c2 + 1), drop_cols m c2] := by
  rw [edge_col_patches, if_neg (by simp), if_pos (by simp)]
  simp

/-- Counterexample to claim C4: for the grid
`lon_edges = [0, 90, ..., 720]` (spanning 720°) with `alf = 0`,
`phi = 0`, the seam locator finds three interior cut indices
(`[2, 4, 6]`, at longitudes 180, 360, 540), and `plot_rotated_map`
still silently produces three patches — no error path exists. -/
theorem claim4_counterexample :
    (lon_cut_idx [0, 90, 180, 270, 360, 450, 540, 630, 720]).length = 3 ∧
    (plot_rotated_map rotate_sphere_id [0, 90, 180, 270, 360, 450, 540, 630, 720] [-90, 0, 90]
      [[some 1, some 2, some 3, some 4, some 5, some 6, some 7, some 8],
       [some 9, some 10, some 11, some 12, some 13, some 14, some 15, some 16]]
      0 0).length = 3 := by
  constructor
  · rw [lon_cut_idx_720]; rfl
  · norm_num [plot_rotated_map, rotate_sphere_id, cast0_m180, cast0_0, cast180_0,
      listMin, listMax, List.foldl, insert_coordinate, lon_cut_idx, meshX, meshY,
      edge_col_patches, data_patches, boundary_correction, replace_values,
      take_cols, drop_cols, slice_cols, npIdx, List.filter_cons, List.range_succ,
      rm180_0, rm180_90, rm180_180, rm180_270, rm180_360,
      rm180_450, rm180_540, rm180_630, rm180_720]

/-- Claim C4 as amended: when the seam locator finds more than two
interior cut indices, the program signals nothing: the splitter silently
uses only the first two cut indices (ignoring the rest) and emits three
patches. -/
theorem claim4_silent_truncation {α : Type} (lons : List ℚ) (d m : List (List α))
    (h : 2 < (lon_cut_idx lons).length) :
    data_patches (lon_cut_idx lons) d = data_patches ((lon_cut_idx lons).take 2) d ∧
    (data_patches (lon_cut_idx lons) d).length = 3 ∧
    edge_col_patches (lon_cut_idx lons) m = edge_col_patches ((lon_cut_idx lons).take 2) m ∧
    (edge_col_patches (lon_cut_idx lons) m).length = 3 := by
  rcases hidx : lon_cut_idx lons with _ | ⟨c, _ | ⟨c2, rest⟩⟩
  · rw [hidx] at h; simp at h
  · rw [hidx] at h; simp at h
  · have ht : List.take 2 (c :: c2 :: rest) = [c, c2] := rfl
    refine ⟨?_, ?_, ?_, ?_⟩
    · rw [ht, data_patches_take_two, data_patches_take_two]
    · rw [data_patches_take_two]; rfl
    · rw [ht, edge_col_patches_take_two, edge_col_patches_take_two]
    · rw [edge_col_patches_take_two]; rfl

/-- Witness for the amended C4 at the concrete 720°-span grid: three
cut indices are found and three patches come out. -/
theorem claim4_silent_truncation_witness :
    (data_patches (lon_cut_idx [0, 90, 180, 270, 360, 450, 540, 630, 720])
      [[some (1 : ℚ)]]).length = 3 ∧
    (edge_col_patches (lon_cut_idx [0, 90, 180, 270, 360, 450, 540, 630, 720])
      [[some (1 : ℚ)]]).length = 3 := by
  have h := claim4_silent_truncation [0, 90, 180, 270, 360, 450, 540, 630, 720]
    [[some (1 : ℚ)]] [[some (1 : ℚ)]] (by rw [lon_cut_idx_720]; norm_num)
  exact ⟨h.2.1, h.2.2.2⟩

/-! Machinery for the insertion-growth claim: position of a value in a
sorted coordinate array. -/

lemma getD_mem_of_lt {l : List ℚ} {i : ℕ} (h : i < l.length) : l.getD i 0 ∈ l := by
  rw [List.getD_eq_getElem l 0 h]
  exact List.getElem_mem h

lemma sorted_lt_count : ∀ (coords : List ℚ) (new_coord : ℚ),
    coords.Sorted (· ≤ ·) → new_coord ∉ coords → ∀ i, i < coords.length →
    ((coords.getD i 0 < new_coord ↔
        i < (coords.filter fun x => decide (x < new_coord)).length) ∧
     (new_coord < coords.getD i 0 ↔
        (coords.filter fun x => decide (x < new_coord)).length ≤ i)) := by
  intro coords
  induction coords with
  | nil => intro q _ _ i hi; simp at hi
  | cons x t ih =>
    intro q hs hnm i hi
    have hs' : t.Sorted (· ≤ ·) := hs.of_cons
    have hxle : ∀ y ∈ t, x ≤ y := List.rel_of_sorted_cons hs
    have hnx : q ≠ x := fun h => hnm (by rw [h]; exact List.mem_cons_self x t)
    have hnm' : q ∉ t := fun h => hnm (List.mem_cons_of_mem x h)
    by_cases hx : x < q
    · have hfil : ((x :: t).filter fun y => decide (y < q)) =
          x :: (t.filter fun y => decide (y < q)) := by
        rw [List.filter_cons_of_pos (by simpa using hx)]
      rw [hfil]
      cases i with
      | zero =>
        refine ⟨⟨fun _ => by simp, fun _ => by simpa using hx⟩, ?_, ?_⟩
        · intro h
          exact absurd h (by simpa using lt_asymm hx)
        · intro h
          simp at h
      | succ j =>
        have hj : j < t.length := by simpa using hi
        have h2 := ih q hs' hnm' j hj
        refine ⟨?_, ?_⟩
        · simpa [Nat.succ_lt_succ_iff] using h2.1
        · simpa [Nat.succ_le_succ_iff] using h2.2
    · have hgt : q < x := lt_of_le_of_ne (not_lt.mp hx) hnx
      have hfil : ((x :: t).filter fun y => decide (y < q)) = [] := by
        rw [List.filter_cons_of_neg (by simpa using hx)]
        refine List.filter_eq_nil_iff.mpr fun y hy => ?_
        simp only [decide_eq_true_eq, not_lt]
        exact (hgt.trans_le (hxle y hy)).le
      rw [hfil]
      have hge : q < (x :: t).getD i 0 := by
        rcases List.mem_cons.mp (getD_mem_of_lt hi) with h | h
        · rw [h]; exact hgt
        · exact hgt.trans_le (hxle _ h)
      simp only [List.length_nil, Nat.not_lt_zero, iff_false, Nat.zero_le, iff_true]
      exact ⟨not_lt.mpr hge.le, hge⟩

lemma range_filter_lt (n k : ℕ) (hk : k ≤ n) :
    (List.range n).filter (fun i => decide (i < k)) = List.range k := by
  induction n with
  | zero =>
    have : k = 0 := Nat.le_zero.mp hk
    simp [this]
  | succ m ih =>
    rw [List.range_succ, List.filter_append]
    rcases Nat.lt_or_ge m k with hmk | hmk
    · have hk' : k = m + 1 := by omega
      subst hk'
      rw [List.filter_eq_self.mpr fun a ha => by
        have := List.mem_range.mp ha; simp; omega]
      simp [List.range_succ, hmk]
    · rw [ih hmk]
      simp [Nat.not_lt.mpr hmk]

lemma range_filter_ge (n k : ℕ) :
    (List.range n).filter (fun i => decide (k ≤ i)) = List.range' k (n - k) := by
  induction n with
  | zero => simp
  | succ m ih =>
    rw [List.range_succ, List.filter_append, ih]
    rcases le_or_lt k m with hkm | hkm
    · have h1 : m + 1 - k = (m - k) + 1 := by omega
      rw [h1, List.range'_concat]
      have h2 : k + 1 * (m - k) = m := by omega
      simp [h2, hkm]
    · have h1 : m + 1 - k = 0 := by omega
      have h2 : m - k = 0 := by omega
      rw [h1, h2]
      simp [Nat.not_le.mpr hkm]

lemma map_getD_range {α : Type} (d : α) :
    ∀ (l : List α) (k : ℕ), k ≤ l.length →
      (List.range k).map (fun i => l.getD i d) = l.take k := by
  intro l
  induction l with
  | nil =>
    intro k hk
    have : k = 0 := by simpa using hk
    simp [this]
  | cons x t ih =>
    intro k hk
    cases k with
    | zero => simp
    | succ j =>
      rw [List.range_succ_eq_map, List.map_cons, List.map_map]
      have hj : j ≤ t.length := by simpa using hk
      have : ((fun i => (x :: t).getD i d) ∘ Nat.succ) = fun i => t.getD i d := by
        funext i
        simp [Function.comp, List.getD_cons_succ]
      rw [this, ih j hj]
      simp

lemma map_getD_range_add {α : Type} (d : α) :
    ∀ (l : List α) (a b : ℕ), a + b ≤ l.length →
      (List.range b).map (fun i => l.getD (a + i) d) = (l.drop a).take b := by
  intro l
  induction l with
  | nil =>
    intro a b h
    have hb : b = 0 := by simp at h; omega
    simp [hb]
  | cons x t ih =>
    intro a b h
    cases a with
    | zero =>
      simp only [Nat.zero_add, List.drop_zero]
      exact map_getD_range d (x :: t) b (by simpa using h)
    | succ a' =>
      have hred : ∀ i : ℕ, (x :: t).getD (a' + 1 + i) d = t.getD (a' + i) d := by
        intro i
        have hi : a' + 1 + i = (a' + i) + 1 := by omega
        rw [hi, List.getD_cons_succ]
      calc (List.range b).map (fun i => (x :: t).getD (a' + 1 + i) d)
          = (List.range b).map (fun i => t.getD (a' + i) d) :=
            List.map_congr_left fun i _ => hred i
        _ = (t.drop a').take b := ih a' b (by simp at h; omega)
        _ = ((x :: t).drop (a' + 1)).take b := by rw [List.drop_succ_cons]

/-- Counterexample to claim C5: inserting `90` — strictly between the
minimum `0` and the maximum `180` — into `[0, 90, 180]` does not grow
the coordinate array: the existing occurrence of `90` is dropped and the
new one inserted, so the length stays 3 instead of 4. -/
theorem claim5_counterexample :
    (insert_coordinate 90 [0, 90, 180] true [[some 1, some 2]]).1.length ≠
      ([0, 90, 180] : List ℚ).length + 1 := by
  norm_num [insert_coordinate, List.filter_cons, List.range_succ, npIdx]

/-- Claim C5 as amended: for every ascending coordinate array and
shape-consistent data matrix, `insert_coordinate` with a new value
strictly between `min(coords)` and `max(coords)` *and distinct from
every existing coordinate* grows the coordinate array by exactly one
(the new value lands after the `K` smaller coordinates), and grows the
data by exactly one column (longitude mode) or row (latitude mode), the
new pixel being a duplicate of the pixel immediately below the
insertion point (`row.take K ++ row.drop (K-1)` duplicates pixel
`K-1`). -/
theorem claim5_insert_inside_growth (new_coord : ℚ) (coords : List ℚ) (data datal : OMat)
    (hs : coords.Sorted (· ≤ ·)) (hnm : new_coord ∉ coords)
    (hlo : listMin coords < new_coord) (hhi : new_coord < listMax coords)
    (hrows : ∀ row ∈ data, row.length = coords.length - 1)
    (hlen : datal.length = coords.length - 1) :
    (insert_coordinate new_coord coords true data).1 =
      coords.take ((coords.filter fun x => decide (x < new_coord)).length) ++
        new_coord :: coords.drop ((coords.filter fun x => decide (x < new_coord)).length) ∧
    (insert_coordinate new_coord coords true data).1.length = coords.length + 1 ∧
    (insert_coordinate new_coord coords true data).2 =
      data.map (fun row =>
        row.take ((coords.filter fun x => decide (x < new_coord)).length) ++
        row.drop ((coords.filter fun x => decide (x < new_coord)).length - 1)) ∧
    (∀ row ∈ data,
      (row.take ((coords.filter fun x => decide (x < new_coord)).length) ++
        row.drop ((coords.filter fun x => decide (x < new_coord)).length - 1)).length =
      row.length + 1) ∧
    (insert_coordinate new_coord coords false datal).1 =
      (insert_coordinate new_coord coords true data).1 ∧
    (insert_coordinate new_coord coords false datal).2 =
      datal.take ((coords.filter fun x => decide (x < new_coord)).length) ++
        datal.drop ((coords.filter fun x => decide (x < new_coord)).length - 1) ∧
    (insert_coordinate new_coord coords false datal).2.length = datal.length + 1 := by
  have hne : coords ≠ [] := by
    intro h
    rw [h] at hlo hhi
    simp only [listMin, listMax] at hlo hhi
    linarith
  have hguard : ¬((∀ x ∈ coords, new_coord < x) ∨ (∀ x ∈ coords, x < new_coord)) := by
    rintro (h | h)
    · exact absurd (h _ (listMin_mem hne)) (not_lt.mpr hlo.le)
    · exact absurd (h _ (listMax_mem hne)) (not_lt.mpr hhi.le)
  have hiff := sorted_lt_count coords new_coord hs hnm
  have hKle : (coords.filter fun x => decide (x < new_coord)).length ≤ coords.length :=
    List.length_filter_le _ _
  have hKpos : 0 < (coords.filter fun x => decide (x < new_coord)).length := by
    have hmem : listMin coords ∈ coords.filter fun x => decide (x < new_coord) :=
      List.mem_filter.mpr ⟨listMin_mem hne, by simpa using hlo⟩
    exact List.length_pos.mpr (List.ne_nil_of_mem hmem)
  have hKlt : (coords.filter fun x => decide (x < new_coord)).length < coords.length := by
    obtain ⟨⟨j, hj⟩, hjv⟩ := List.mem_iff_get.mp (listMax_mem hne)
    have hgt : new_coord < coords.getD j 0 := by
      rw [List.getD_eq_getElem _ _ hj]
      rw [List.get_eq_getElem] at hjv
      rw [hjv]
      exact hhi
    have := (hiff j hj).2.mp hgt
    omega
  have hbelow : ((List.range coords.length).filter fun i =>
      decide (coords.getD i 0 < new_coord)) =
      List.range ((coords.filter fun x => decide (x < new_coord)).length) := by
    rw [List.filter_congr fun i hi =>
      decide_eq_decide.mpr (hiff i (List.mem_range.mp hi)).1]
    exact range_filter_lt _ _ hKle
  have habove : ((List.range coords.length).filter fun i =>
      decide (new_coord < coords.getD i 0)) =
      List.range' ((coords.filter fun x => decide (x < new_coord)).length)
        (coords.length - (coords.filter fun x => decide (x < new_coord)).length) := by
    rw [List.filter_congr fun i hi =>
      decide_eq_decide.mpr (hiff i (List.mem_range.mp hi)).2]
    exact range_filter_ge _ _
  have hcoordsval : (((List.range coords.length).filter fun i =>
        decide (coords.getD i 0 < new_coord)).map fun i => coords.getD i 0) ++
        new_coord :: (((List.range coords.length).filter fun i =>
        decide (new_coord < coords.getD i 0)).map fun i => coords.getD i 0) =
      coords.take ((coords.filter fun x => decide (x < new_coord)).length) ++
        new_coord :: coords.drop ((coords.filter fun x => decide (x < new_coord)).length) := by
    rw [hbelow]
    rw [habove]
    rw [map_getD_range 0 coords _ hKle]
    rw [List.range'_eq_map_range]
    rw [List.map_map]
    congr 2
    have h1 : ((fun i => coords.getD i 0) ∘
        (fun i => (coords.filter fun x => decide (x < new_coord)).length + i)) =
        fun i => coords.getD ((coords.filter fun x => decide (x < new_coord)).length + i) 0 :=
      rfl
    rw [h1, map_getD_range_add 0 coords _ _ (by omega)]
    have h2 : (coords.drop ((coords.filter fun x => decide (x < new_coord)).length)).length =
        coords.length - (coords.filter fun x => decide (x < new_coord)).length := by
      simp
    rw [← h2, List.take_length]
  have hrowval : ∀ (row : List (Option ℚ)), row.length = coords.length - 1 →
      (((List.range coords.length).filter fun i =>
        decide (coords.getD i 0 < new_coord)).map fun i => row.getD i none) ++
      (((List.range coords.length).filter fun i =>
        decide (new_coord < coords.getD i 0)).map fun i : ℕ => npIdx row ((i : ℤ) - 1)) =
      row.take ((coords.filter fun x => decide (x < new_coord)).length) ++
        row.drop ((coords.filter fun x => decide (x < new_coord)).length - 1) := by
    intro row hrow
    rw [hbelow, habove, map_getD_range none row _ (by omega), List.range'_eq_map_range,
      List.map_map]
    congr 1
    have h1 : ∀ i ∈ List.range (coords.length -
        (coords.filter fun x => decide (x < new_coord)).length),
        ((fun i : ℕ => npIdx row ((i : ℤ) - 1)) ∘
          (fun i => (coords.filter fun x => decide (x < new_coord)).length + i)) i =
        row.getD ((coords.filter fun x => decide (x < new_coord)).length - 1 + i) none := by
      intro i _
      simp only [Function.comp]
      rw [npIdx, if_pos (by push_cast; omega)]
      congr 1
      omega
    rw [List.map_congr_left h1, map_getD_range_add none row _ _ (by omega)]
    have h2 : (row.drop ((coords.filter fun x => decide (x < new_coord)).length - 1)).length =
        coords.length - (coords.filter fun x => decide (x < new_coord)).length := by
      simp
      omega
    rw [← h2, List.take_length]
  have hlatval :
      (((List.range coords.length).filter fun i =>
        decide (coords.getD i 0 < new_coord)).map fun i => datal.getD i []) ++
      (((List.range coords.length).filter fun i =>
        decide (new_coord < coords.getD i 0)).map fun i : ℕ => npRow datal ((i : ℤ) - 1)) =
      datal.take ((coords.filter fun x => decide (x < new_coord)).length) ++
        datal.drop ((coords.filter fun x => decide (x < new_coord)).length - 1) := by
    rw [hbelow, habove, map_getD_range [] datal _ (by omega), List.range'_eq_map_range,
      List.map_map]
    congr 1
    have h1 : ∀ i ∈ List.range (coords.length -
        (coords.filter fun x => decide (x < new_coord)).length),
        ((fun i : ℕ => npRow datal ((i : ℤ) - 1)) ∘
          (fun i => (coords.filter fun x => decide (x < new_coord)).length + i)) i =
        datal.getD ((coords.filter fun x => decide (x < new_coord)).length - 1 + i) [] := by
      intro i _
      simp only [Function.comp]
      rw [npRow, if_pos (by push_cast; omega)]
      congr 1
      omega
    rw [List.map_congr_left h1, map_getD_range_add [] datal _ _ (by omega)]
    have h2 : (datal.drop ((coords.filter fun x => decide (x < new_coord)).length - 1)).length =
        coords.length - (coords.filter fun x => decide (x < new_coord)).length := by
      simp
      omega
    rw [← h2, List.take_length]
  have hshape_lon : insert_coordinate new_coord coords true data =
      (coords.take ((coords.filter fun x => decide (x < new_coord)).length) ++
        new_coord :: coords.drop ((coords.filter fun x => decide (x < new_coord)).length),
       data.map fun row =>
        row.take ((coords.filter fun x => decide (x < new_coord)).length) ++
        row.drop ((coords.filter fun x => decide (x < new_coord)).length - 1)) := by
    rw [insert_coordinate, if_neg hguard]
    simp only [if_true]
    refine Prod.ext hcoordsval ?_
    show (if data.isEmpty then data else _) = _
    by_cases hdata : data.isEmpty
    · rw [if_pos hdata, List.isEmpty_iff.mp hdata]
      rfl
    · rw [if_neg hdata]
      exact List.map_congr_left fun row hrowmem => hrowval row (hrows row hrowmem)
  have hshape_lat : insert_coordinate new_coord coords false datal =
      (coords.take ((coords.filter fun x => decide (x < new_coord)).length) ++
        new_coord :: coords.drop ((coords.filter fun x => decide (x < new_coord)).length),
       datal.take ((coords.filter fun x => decide (x < new_coord)).length) ++
        datal.drop ((coords.filter fun x => decide (x < new_coord)).length - 1)) := by
    rw [insert_coordinate, if_neg hguard]
    simp only [Bool.false_eq_true, if_false]
    refine Prod.ext hcoordsval ?_
    show (if datal.isEmpty then datal else _) = _
    by_cases hdata : datal.isEmpty
    · have hd : datal = [] := List.isEmpty_iff.mp hdata
      subst hd
      simp
    · rw [if_neg hdata]
      exact hlatval
  refine ⟨?_, ?_, ?_, ?_, ?_, ?_, ?_⟩
  · rw [hshape_lon]
  · rw [hshape_lon]
    simp only [List.length_append, List.length_take, List.length_cons, List.length_drop]
    omega
  · rw [hshape_lon]
  · intro row hrowmem
    have hr := hrows row hrowmem
    simp only [List.length_append, List.length_take, List.length_drop]
    omega
  · rw [hshape_lat, hshape_lon]
  · rw [hshape_lat]
  · rw [hshape_lat]
    simp only [List.length_append, List.length_take, List.length_drop]
    omega

/-- Witness for the amended C5: inserting `45` into `[0, 90, 180]`
(strictly inside the range, hitting no existing coordinate) grows the
edges to `[0, 45, 90, 180]` and duplicates the data column below the
insertion point. -/
theorem claim5_insert_inside_growth_witness :
    (insert_coordinate 45 [0, 90, 180] true [[some 1, some 2]]).1 = [0, 45, 90, 180] ∧
    (insert_coordinate 45 [0, 90, 180] true [[some 1, some 2]]).2 =
      [[some 1, some 1, some 2]] := by
  have h := claim5_insert_inside_growth 45 [0, 90, 180] [[some 1, some 2]]
    [[some 1, some 2], [some 3, some 4]]
    (by norm_num [List.sorted_cons])
    (by norm_num)
    (by norm_num [listMin, List.foldl])
    (by norm_num [listMax, List.foldl])
    (by norm_num)
    (by norm_num)
  constructor
  · rw [h.1]
    norm_num [List.filter_cons]
  · rw [h.2.2.1]
    norm_num [List.filter_cons]

/-! Machinery for the gridline-splitting claim. -/

lemma jump_indices_nodup (lons : List ℚ) : (jump_indices lons).Nodup := by
  refine List.Nodup.map (fun a b => by omega) ?_
  exact (List.nodup_range _).filter _

lemma jump_indices_bound (lons : List ℚ) :
    ∀ j ∈ jump_indices lons, 1 ≤ j ∧ j < lons.length := by
  intro j hj
  obtain ⟨i, hi, rfl⟩ := List.mem_map.mp hj
  have := List.mem_range.mp (List.mem_of_mem_filter hi)
  omega

lemma zip_self_map {α : Type} (l : List ℕ) (g : ℕ → α) :
    l.zip (l.map g) = l.map fun j => (j, g j) := by
  induction l with
  | nil => rfl
  | cons x t ih => simp [ih]

lemma filter_fst_map {α : Type} (l : List ℕ) (g : ℕ → α) (hl : l.Nodup) (i : ℕ) :
    ((l.map fun j => (j, g j)).filter fun p => decide (p.1 = i)) =
      if i ∈ l then [(i, g i)] else [] := by
  induction l with
  | nil => simp
  | cons x t ih =>
    have hx : x ∉ t := (List.nodup_cons.mp hl).1
    have ht : t.Nodup := (List.nodup_cons.mp hl).2
    by_cases hxi : x = i
    · subst hxi
      have hrest : ((t.map fun j => (j, g j)).filter fun p => decide (p.1 = x)) = [] := by
        refine List.filter_eq_nil_iff.mpr fun p hp => ?_
        obtain ⟨j, hj, rfl⟩ := List.mem_map.mp hp
        simp only [decide_eq_true_eq]
        intro hji
        exact hx (hji ▸ hj)
      simp [List.filter_cons, hrest]
    · rw [List.map_cons, List.filter_cons_of_neg (by simpa using hxi), ih ht]
      by_cases hit : i ∈ t
      · rw [if_pos hit, if_pos (List.mem_cons_of_mem x hit)]
      · rw [if_neg hit, if_neg ?hnc]
        case hnc =>
          intro hc
          rcases List.mem_cons.mp hc with h' | h'
          · exact hxi h'.symm
          · exact hit h'

lemma np_insert_spec (arr : List ℚ) (jumps : List ℕ) (hnd : jumps.Nodup)
    (hbd : ∀ j ∈ jumps, j < arr.length) (f g : ℕ → Option ℚ) :
    np_insert (arr.map some)
      ((jumps ++ jumps ++ jumps).zip
        (jumps.map f ++ jumps.map (fun _ => none) ++ jumps.map g)) =
      (List.range arr.length).flatMap fun i =>
        (if i ∈ jumps then [f i, none, g i] else []) ++ ((arr.map some).get? i).toList := by
  have hlen : (arr.map some).length = arr.length := List.length_map arr some
  have hzip : (jumps ++ jumps ++ jumps).zip
      (jumps.map f ++ jumps.map (fun _ => none) ++ jumps.map g) =
      (jumps.map fun j => (j, f j)) ++ (jumps.map fun j => (j, (none : Option ℚ))) ++
        (jumps.map fun j => (j, g j)) := by
    rw [List.zip_append (by simp), List.zip_append (by simp)]
    rw [zip_self_map, zip_self_map, zip_self_map]
  rw [np_insert, hzip, hlen]
  have htail : ((jumps.map fun j => (j, f j)) ++ (jumps.map fun j => (j, (none : Option ℚ))) ++
      (jumps.map fun j => (j, g j))).filter (fun p => decide (arr.length ≤ p.1)) = [] := by
    refine List.filter_eq_nil_iff.mpr fun p hp => ?_
    simp only [List.mem_append, List.mem_map] at hp
    have hlt : p.1 < arr.length := by
      rcases hp with (⟨j, hj, rfl⟩ | ⟨j, hj, rfl⟩) | ⟨j, hj, rfl⟩ <;> exact hbd j hj
    simp only [decide_eq_true_eq]
    omega
  rw [htail, List.map_nil, List.append_nil]
  rw [List.flatMap_def _ _, List.flatMap_def _ _]
  refine congrArg List.flatten (List.map_congr_left fun i _ => ?_)
  rw [List.filter_append, List.filter_append, filter_fst_map jumps f hnd i,
    filter_fst_map jumps (fun _ => none) hnd i, filter_fst_map jumps g hnd i]
  by_cases hij : i ∈ jumps
  · simp [hij]
  · simp [hij]

/-- Claim C8: in gridline splitting, a jump is detected at exactly the
indices where the absolute per-step longitude delta exceeds 90°, and at
each jump exactly the three synthetic vertices
`(-endpoint_lon, midpoint_lat)`, `(NaN, NaN)`,
`(endpoint_lon, midpoint_lat)` are inserted before the post-jump point,
with `endpoint_lon = 180 * round(lon_after_jump / 180)` and
`midpoint_lat` the average of the two straddling latitudes: the
`np.insert`-based code equals the walk-and-insert description. -/
theorem claim8_gridline_split (lons lats : List ℚ) (hlen : lats.length = lons.length) :
    (add_grid_patch_split lons lats).1 = gridline_spec_lons lons ∧
    (add_grid_patch_split lons lats).2 = gridline_spec_lats lons lats ∧
    (∀ i : ℕ, (i + 1) ∈ jump_indices lons ↔
      (i < lons.length - 1 ∧ 90 < |lons.getD i 0 - lons.getD (i + 1) 0|)) := by
  refine ⟨?_, ?_, ?_⟩
  · show np_insert (lons.map some)
      ((jump_indices lons ++ jump_indices lons ++ jump_indices lons).zip
        ((jump_indices lons).map (fun j => some (-(lon_end lons j))) ++
          (jump_indices lons).map (fun _ => (none : Option ℚ)) ++
          (jump_indices lons).map (fun j => some (lon_end lons j)))) = _
    rw [np_insert_spec lons (jump_indices lons) (jump_indices_nodup lons)
      (fun j hj => (jump_indices_bound lons j hj).2) _ _]
    rfl
  · show np_insert (lats.map some)
      ((jump_indices lons ++ jump_indices lons ++ jump_indices lons).zip
        ((jump_indices lons).map (fun j => some (lat_end lats j)) ++
          (jump_indices lons).map (fun _ => (none : Option ℚ)) ++
          (jump_indices lons).map (fun j => some (lat_end lats j)))) = _
    rw [np_insert_spec lats (jump_indices lons) (jump_indices_nodup lons)
      (fun j hj => hlen ▸ (jump_indices_bound lons j hj).2) _ _]
    rfl
  · intro i
    constructor
    · intro h
      obtain ⟨i', hi', he⟩ := List.mem_map.mp h
      have hii : i' = i := by omega
      subst hii
      have h2 := List.mem_filter.mp hi'
      exact ⟨List.mem_range.mp h2.1, by simpa using h2.2⟩
    · rintro ⟨h1, h2⟩
      exact List.mem_map.mpr
        ⟨i, List.mem_filter.mpr ⟨List.mem_range.mpr h1, by simpa using h2⟩, rfl⟩

/-- Witness for C8 at a concrete line: `[0, 180]` has one jump (delta
180° > 90°) after index 0, and the three synthetic vertices
`(-180, 15)`, `(NaN, NaN)`, `(180, 15)` appear before the post-jump
vertex. -/
theorem claim8_gridline_split_witness :
    (add_grid_patch_split [0, 180] [0, 30]).1 =
      [some 0, some (-180), none, some 180, some 180] ∧
    (add_grid_patch_split [0, 180] [0, 30]).2 =
      [some 0, some 15, none, some 15, some 30] := by
  have h := claim8_gridline_split [0, 180] [0, 30] (by norm_num)
  have hj : jump_indices [(0 : ℚ), 180] = [1] := by
    norm_num [jump_indices, List.filter_cons, List.range_succ]
  constructor
  · rw [h.1]
    norm_num [gridline_spec_lons, hj, lon_end, npRound, List.range_succ, Int.fract_one]
  · rw [h.2.1]
    norm_num [gridline_spec_lats, hj, lat_end, List.range_succ]

/-! Frame lemmas for the store-passing model: the allocation-only
primitives extend the store, and writes only touch their view's base
buffer. -/

lemma storeExt_refl (s : Store) : StoreExt s s := ⟨le_refl _, fun _ _ => rfl⟩

lemma storeExt_trans {s1 s2 s3 : Store} (h12 : StoreExt s1 s2) (h23 : StoreExt s2 s3) :
    StoreExt s1 s3 :=
  ⟨le_trans h12.1 h23.1, fun i hi => (h23.2 i (lt_of_lt_of_le hi h12.1)).trans (h12.2 i hi)⟩

lemma storeExt_alloc (s : Store) (b : OMat) : StoreExt s (allocB s b).2 := by
  refine ⟨by simp [allocB], fun i hi => ?_⟩
  rw [allocB, List.get?_eq_getElem?, List.get?_eq_getElem?, List.getElem?_append_left hi]

lemma allocB_base (s : Store) (b : OMat) : (allocB s b).1.base = s.length := rfl

lemma allocB_len (s : Store) (b : OMat) : (allocB s b).2.length = s.length + 1 := by
  simp [allocB]

lemma storeExt_alloc2 {s0 s : Store} (h : StoreExt s0 s) (b : OMat) :
    StoreExt s0 (allocB s b).2 :=
  storeExt_trans h (storeExt_alloc s b)

lemma storeExt_copy2 {s0 s : Store} (h : StoreExt s0 s) (v : NpView) :
    StoreExt s0 (copyV s v).2 :=
  storeExt_alloc2 h _

lemma storeExt_insertS2 {s0 s : Store} (h : StoreExt s0 s) (new_coord : ℚ)
    (coordsV : NpView) (is_lon : Bool) (dataV : NpView) :
    StoreExt s0 (insert_coordinateS s new_coord coordsV is_lon dataV).2.2 := by
  rw [insert_coordinateS]
  split
  · exact h
  · exact storeExt_alloc2 (storeExt_alloc2 h _) _

lemma writeV_len (s : Store) (v : NpView) (f : Option ℚ → Option ℚ) :
    (writeV s v f).length = s.length := by
  simp [writeV]

lemma writeV_get_ne (s : Store) (v : NpView) (f : Option ℚ → Option ℚ) (i : ℕ)
    (hi : i ≠ v.base) : (writeV s v f).get? i = s.get? i := by
  rw [writeV, List.get?_eq_getElem?, List.get?_eq_getElem?,
    List.getElem?_set_ne (fun h => hi h.symm)]

lemma storeExt_write {s0 s : Store} (h : StoreExt s0 s) (v : NpView)
    (f : Option ℚ → Option ℚ) (hb : s0.length ≤ v.base) :
    StoreExt s0 (writeV s v f) := by
  refine ⟨by rw [writeV_len]; exact h.1, fun i hi => ?_⟩
  rw [writeV_get_ne s v f i (by omega), h.2 i hi]

lemma storeExt_write_phase {s0 s : Store} (h : StoreExt s0 s) (phi : ℚ)
    (lps : List NpView) (hb : ∀ v ∈ lps, s0.length ≤ v.base) :
    StoreExt s0 (write_phase s phi lps) := by
  rcases lps with _ | ⟨a, _ | ⟨b, _ | ⟨c, _ | d⟩⟩⟩ <;> delta write_phase <;>
    split_ifs with hphi <;>
  first
    | exact h
    | exact storeExt_write (storeExt_write h _ _ (hb _ (by simp))) _ _ (hb _ (by simp))
    | exact storeExt_write (storeExt_write (storeExt_write h _ _ (hb _ (by simp))) _ _
        (hb _ (by simp))) _ _ (hb _ (by simp))

lemma stage_widen_ext (lonsV dataV : NpView) (s0 : Store) :
    StoreExt s0 (stage_widen lonsV dataV s0).2.2 := by
  rw [stage_widen]
  split
  · exact storeExt_alloc2 (storeExt_alloc s0 _) _
  · exact storeExt_refl s0

lemma stage_lat_inserts_ext (alf : ℚ) (latsV dataV : NpView) (s1 : Store) :
    StoreExt s1 (stage_lat_inserts alf latsV dataV s1).2.2 := by
  rw [stage_lat_inserts]
  split <;> split <;> apply_rules [storeExt_insertS2, storeExt_refl]

lemma stage_lon_rotate_ext (rot : OMat → OMat → ℚ → OMat × OMat) (alf phi : ℚ)
    (lonsV latsV dataV : NpView) (s3 : Store) :
    StoreExt s3 (stage_lon_rotate rot alf phi lonsV latsV dataV s3).store := by
  rw [stage_lon_rotate]
  exact storeExt_alloc2 (storeExt_alloc2 (storeExt_alloc2 (storeExt_alloc2 (storeExt_alloc2
    (storeExt_insertS2 (storeExt_insertS2 (storeExt_refl s3) _ _ _ _) _ _ _ _) _) _) _) _) _

lemma stage_pre_ext (rot : OMat → OMat → ℚ → OMat × OMat) (alf phi : ℚ)
    (lonsV latsV dataV : NpView) (s0 : Store) :
    StoreExt s0 (stage_pre rot alf phi lonsV latsV dataV s0).store := by
  rw [stage_pre]
  exact storeExt_trans (storeExt_trans (stage_widen_ext lonsV dataV s0)
    (stage_lat_inserts_ext alf latsV _ _)) (stage_lon_rotate_ext rot alf phi _ _ _ _)

lemma stage_cut_ext (phi : ℚ) (lonsRV latsRV dataV : NpView) (idx : List ℕ) (s : Store) :
    StoreExt s (stage_cut phi lonsRV latsRV dataV idx s).2 := by
  simp only [stage_cut]
  split
  · exact storeExt_refl s
  · split
    · show StoreExt s (Prod.snd _)
      rw [Prod.snd]
      refine storeExt_write_phase
        (storeExt_copy2 (storeExt_copy2 (storeExt_copy2 (storeExt_refl s) _) _) _) phi _ ?_
      intro v hv
      simp only [List.mem_cons, List.not_mem_nil, or_false] at hv
      rcases hv with hv | hv | hv <;> subst hv <;>
        simp [viewCols, copyV, allocB, view_all]
    · change StoreExt s (write_phase _ _ _)
      refine storeExt_write_phase
        (storeExt_copy2 (storeExt_copy2 (storeExt_refl s) _) _) phi _ ?_
      intro v hv
      split at hv <;>
        simp only [List.mem_reverse, List.mem_cons, List.not_mem_nil, or_false] at hv <;>
        rcases hv with hv | hv <;> subst hv <;>
        simp [viewCols, copyV, allocB, view_all]

/-- Claim C10: the patch-construction pipeline never mutates the
caller's arrays.  In the store-passing model, running
`plot_rotated_mapS` on a store holding exactly the caller's `lons`,
`lats` and `data` buffers leaves all three buffers unchanged: the
widening, coordinate insertions, longitude shift, meshgrid and rotation
only allocate fresh buffers, and the in-place boundary value
replacement writes only through views of `lons.copy()` buffers. -/
theorem claim10_no_mutation (rot : OMat → OMat → ℚ → OMat × OMat) (alf0 phi0 : ℚ)
    (lonsB latsB dataB : OMat) :
    (plot_rotated_mapS rot alf0 phi0 (view_all 0) (view_all 1) (view_all 2)
      [lonsB, latsB, dataB]).2.get? 0 = some lonsB ∧
    (plot_rotated_mapS rot alf0 phi0 (view_all 0) (view_all 1) (view_all 2)
      [lonsB, latsB, dataB]).2.get? 1 = some latsB ∧
    (plot_rotated_mapS rot alf0 phi0 (view_all 0) (view_all 1) (view_all 2)
      [lonsB, latsB, dataB]).2.get? 2 = some dataB := by
  have hext : StoreExt [lonsB, latsB, dataB]
      (plot_rotated_mapS rot alf0 phi0 (view_all 0) (view_all 1) (view_all 2)
        [lonsB, latsB, dataB]).2 := by
    rw [plot_rotated_mapS]
    exact storeExt_trans
      (stage_pre_ext rot (cast_into_360range alf0 (-180)) (cast_into_360range phi0 (-180))
        (view_all 0) (view_all 1) (view_all 2) [lonsB, latsB, dataB])
      (stage_cut_ext _ _ _ _ _ _)
  refine ⟨?_, ?_, ?_⟩
  · rw [hext.2 0 (by norm_num)]; rfl
  · rw [hext.2 1 (by norm_num)]; rfl
  · rw [hext.2 2 (by norm_num)]; rfl

end MollSky
